import Mathlib

/-!
Shallow embedding of the General Rate Model core (GeneralRateModel.cpp) and of
the system-level consistent-initialization driver
(ModelSystemImpl-InitialConditions.cpp).  Scalars are modelled as rationals
(exact arithmetic); external plug-ins (the binding cell kernel and the
convection-dispersion operator) enter as opaque function parameters, mirroring
their contracts.  Line numbers in the doc comments refer to the two C++
source files.
-/

namespace Cadet

/-- Per-type bound-state offsets `boundOffset[t*nComp + c]`
(GeneralRateModel.cpp, lines 184-188): prefix sums of `nBound` within one
particle type.  `nBoundT c` stands for `_disc.nBound[t*nComp + c]`. -/
def boundOffset (nBoundT : ℕ → ℕ) : ℕ → ℕ
  | 0 => 0
  | i + 1 => boundOffset nBoundT i + nBoundT i

/-- The stride over all bound states of one particle type,
`strideBound[t] = boundOffset[nComp-1] + nBound[nComp-1]`
(GeneralRateModel.cpp, line 189). -/
def strideBound (nComp : ℕ) (nBoundT : ℕ → ℕ) : ℕ :=
  boundOffset nBoundT (nComp - 1) + nBoundT (nComp - 1)

/-- `strideBound` read off the flattened `nBound` array: type `j` occupies
entries `j*nComp ..< (j+1)*nComp`. -/
def strideBoundType (nComp : ℕ) (nBoundFlat : ℕ → ℕ) (j : ℕ) : ℕ :=
  strideBound nComp (fun c => nBoundFlat (j * nComp + c))

/-- `parTypeOffset` recurrence (GeneralRateModel.cpp, line 203):
`parTypeOffset[j] = parTypeOffset[j-1] + (nComp + strideBound[j-1]) * nParCell[j-1] * nCol`. -/
def parTypeOffset (nCol nComp : ℕ) (nParCellFn nBoundFlat : ℕ → ℕ) : ℕ → ℕ
  | 0 => 0
  | j + 1 => parTypeOffset nCol nComp nParCellFn nBoundFlat j
      + (nComp + strideBoundType nComp nBoundFlat j) * nParCellFn j * nCol

/-- `GeneralRateModel::numDofs` (GeneralRateModel.cpp, line 98):
`nCol * (nComp * (1 + nParType)) + parTypeOffset[nParType] + nComp`. -/
def numDofs (nCol nComp nParType : ℕ) (nParCellFn nBoundFlat : ℕ → ℕ) : ℕ :=
  nCol * (nComp * (1 + nParType))
    + parTypeOffset nCol nComp nParCellFn nBoundFlat nParType + nComp

lemma boundOffset_eq_sum (nBoundT : ℕ → ℕ) (i : ℕ) :
    boundOffset nBoundT i = ∑ c in Finset.range i, nBoundT c := by
  induction i with
  | zero => simp [boundOffset]
  | succ i ih => rw [boundOffset, ih, Finset.sum_range_succ]

lemma strideBound_eq_sum (nComp : ℕ) (nBoundT : ℕ → ℕ) (h : 1 ≤ nComp) :
    strideBound nComp nBoundT = ∑ c in Finset.range nComp, nBoundT c := by
  obtain ⟨m, rfl⟩ : ∃ m, nComp = m + 1 := ⟨nComp - 1, by omega⟩
  rw [strideBound, boundOffset_eq_sum, Finset.sum_range_succ]
  simp

lemma parTypeOffset_eq_sum (nCol nComp : ℕ) (nParCellFn nBoundFlat : ℕ → ℕ)
    (nParType : ℕ) :
    parTypeOffset nCol nComp nParCellFn nBoundFlat nParType
      = ∑ t in Finset.range nParType,
          (nComp + strideBoundType nComp nBoundFlat t) * nParCellFn t * nCol := by
  induction nParType with
  | zero => simp [parTypeOffset]
  | succ j ih => rw [parTypeOffset, ih, Finset.sum_range_succ]

/-- C7: for every discretization descriptor with `nComp ≥ 1`, `nParType ≥ 1`,
`nCol ≥ 1`, `numDofs()` returns
`nComp + nCol*nComp + parTypeOffset[nParType] + nCol*nComp*nParType`, where
`parTypeOffset[nParType] = Σ_t (nComp + strideBound[t]) * nParCell[t] * nCol`
and `strideBound[t] = Σ_c nBound[t,c]`. -/
theorem numDofs_closed_form (nCol nComp nParType : ℕ)
    (nParCellFn nBoundFlat : ℕ → ℕ)
    (h1 : 1 ≤ nComp) (h2 : 1 ≤ nParType) (h3 : 1 ≤ nCol) :
    numDofs nCol nComp nParType nParCellFn nBoundFlat
        = nComp + nCol * nComp
          + parTypeOffset nCol nComp nParCellFn nBoundFlat nParType
          + nCol * nComp * nParType
      ∧ parTypeOffset nCol nComp nParCellFn nBoundFlat nParType
        = ∑ t in Finset.range nParType,
            (nComp + ∑ c in Finset.range nComp, nBoundFlat (t * nComp + c))
              * nParCellFn t * nCol := by
  constructor
  · rw [numDofs]; ring
  · rw [parTypeOffset_eq_sum]
    refine Finset.sum_congr rfl fun t _ => ?_
    rw [strideBoundType, strideBound_eq_sum _ _ h1]

/-- Witness for `numDofs_closed_form` at a concrete discretization. -/
theorem numDofs_closed_form_witness :
    numDofs 2 1 1 (fun _ => 3) (fun _ => 2)
        = 1 + 2 * 1 + parTypeOffset 2 1 (fun _ => 3) (fun _ => 2) 1 + 2 * 1 * 1
      ∧ parTypeOffset 2 1 (fun _ => 3) (fun _ => 2) 1
        = ∑ t in Finset.range 1,
            (1 + ∑ c in Finset.range 1, (fun _ : ℕ => 2) (t * 1 + c))
              * (fun _ : ℕ => 3) t * 2 :=
  numDofs_closed_form 2 1 1 (fun _ => 3) (fun _ => 2)
    (by decide) (by decide) (by decide)

/-- `GeneralRateModel::setUserdefinedRadialDisc` (GeneralRateModel.cpp, lines
1751-1784), interface computation: the slice of `_parDiscVector` belonging to
the type (length `nParCell+1`) is sorted in descending order, its first entry
is forced to `1` and its last entry to `0`, and then only the entries with
index `< nParCell` are mapped affinely into `[R_core, R]` (the loop at line
1770 runs `cell < nParCell`, so the final interface keeps the raw value `0`).
The index-aware helper `affineMapBelow` mirrors that loop. -/
def affineMapBelow (r rc : ℚ) (n : ℕ) : ℕ → List ℚ → List ℚ
  | _, [] => []
  | i, x :: xs =>
      (if i < n then x * (r - rc) + rc else x) :: affineMapBelow r rc n (i + 1) xs

/-- The interface list produced by `setUserdefinedRadialDisc` (see
`affineMapBelow` for the loop at line 1770). -/
def setUserdefinedRadialDiscInterfaces (r rc : ℚ) (nParCell : ℕ)
    (slice : List ℚ) : List ℚ :=
  let ordered := slice.insertionSort (fun a b => b ≤ a)
  let clamped := (ordered.set 0 1).set nParCell 0
  affineMapBelow r rc nParCell 0 clamped

/-- Shell sizes of the user-defined mode,
`parCellSize[cell] = orderedInterfaces[cell] - orderedInterfaces[cell+1]`
(GeneralRateModel.cpp, line 1775). -/
def setUserdefinedRadialDiscCellSize (r rc : ℚ) (nParCell : ℕ)
    (slice : List ℚ) (s : ℕ) : ℚ :=
  (setUserdefinedRadialDiscInterfaces r rc nParCell slice).getD s 0
    - (setUserdefinedRadialDiscInterfaces r rc nParCell slice).getD (s + 1) 0

/-- C4: counter-evaluation of the user-defined radial discretization at
`R = 2`, `R_core = 1`, `nParCell = 2`, `PAR_DISC_VECTOR` slice
`[1, 1/2, 0]` (pairwise distinct, inside `[0,1]`).  The affine map skips the
innermost interface, which stays `0` instead of becoming `R_core = 1`, so the
shell sizes sum to `R = 2` and not to `R - R_core = 1`. -/
theorem setUserdefinedRadialDisc_core_radius_ignored :
    setUserdefinedRadialDiscCellSize 2 1 2 [1, 1/2, 0] 0
        + setUserdefinedRadialDiscCellSize 2 1 2 [1, 1/2, 0] 1 = 2
      ∧ (setUserdefinedRadialDiscInterfaces 2 1 2 [1, 1/2, 0]).getD 2 0 = 0
      ∧ (2 : ℚ) ≠ 2 - 1 := by
  have h : setUserdefinedRadialDiscInterfaces 2 1 2 [1, 1/2, 0] = [2, 3/2, 0] := by
    norm_num [setUserdefinedRadialDiscInterfaces, List.insertionSort,
      List.orderedInsert, affineMapBelow, List.set]
  refine ⟨?_, ?_, by norm_num⟩ <;>
    norm_num [setUserdefinedRadialDiscCellSize, h]

/-- `nBoundBeforeType` recurrence (GeneralRateModel.cpp, lines 178 and 192):
`nBoundBeforeType[j+1] = nBoundBeforeType[j] + strideBound[j]`. -/
def nBoundBeforeType (nComp : ℕ) (nBoundFlat : ℕ → ℕ) : ℕ → ℕ
  | 0 => 0
  | j + 1 => nBoundBeforeType nComp nBoundFlat j + strideBoundType nComp nBoundFlat j

/-- The surface-diffusion presence check under `FIX_ZERO_SURFACE_DIFFUSION`
(GeneralRateModel.cpp, lines 274-285): for particle type `t` the code scans
`j < _disc.nBound[t]` (the flattened `nBound` array indexed by the particle
type!) and sets the flag when `surfDiff[nBoundBeforeType[t] + j] != 0`. -/
def hasSurfaceDiffusionCode (nComp : ℕ) (nBoundFlat : ℕ → ℕ)
    (surfDiff : ℕ → ℚ) (t : ℕ) : Bool :=
  (List.range (nBoundFlat t)).any
    (fun j => decide (surfDiff (nBoundBeforeType nComp nBoundFlat t + j) ≠ 0))

/-- The claim's predicate: all `strideBound[t]` surface-diffusion coefficients
belonging to type `t` in `PAR_SURFDIFFUSION` are zero. -/
def surfDiffusionAllZero (nComp : ℕ) (nBoundFlat : ℕ → ℕ)
    (surfDiff : ℕ → ℚ) (t : ℕ) : Prop :=
  ∀ j < strideBoundType nComp nBoundFlat t,
    surfDiff (nBoundBeforeType nComp nBoundFlat t + j) = 0

/-- The particle Jacobian upper bandwidth (GeneralRateModel.cpp, lines
405-408): `lowerBandwidth + (hasSurfaceDiffusion ? strideBound : 0)` with
`lowerBandwidth = nComp + strideBound`. -/
def parJacUpperBandwidth (nComp sb : ℕ) (hasSurf : Bool) : ℕ :=
  (nComp + sb) + (if hasSurf then sb else 0)

/-- The flattened `NBOUND` array of the C6 failing input:
`nComp = 2`, `nParType = 1`, `nBound = [1, 1]`. -/
def c6NBoundFlat : ℕ → ℕ := fun i => if i < 2 then 1 else 0

/-- The `PAR_SURFDIFFUSION` array of the C6 failing input: `[0, 1]`. -/
def c6SurfDiff : ℕ → ℚ := fun i => if i = 1 then 1 else 0

/-- C6: counter-evaluation of the `FIX_ZERO_SURFACE_DIFFUSION` scan.  With
`nComp = 2`, one particle type, `NBOUND = [1, 1]` (so `strideBound[0] = 2`)
and `PAR_SURFDIFFUSION = [0, 1]`, the loop bound `_disc.nBound[0] = 1` makes
the code inspect only the first coefficient: surface diffusion is marked
absent and the extra Jacobian band is dropped although the second coefficient
is nonzero. -/
theorem hasSurfaceDiffusion_misses_nonzero_coefficient :
    hasSurfaceDiffusionCode 2 c6NBoundFlat c6SurfDiff 0 = false
      ∧ ¬ surfDiffusionAllZero 2 c6NBoundFlat c6SurfDiff 0
      ∧ parJacUpperBandwidth 2 (strideBoundType 2 c6NBoundFlat 0)
          (hasSurfaceDiffusionCode 2 c6NBoundFlat c6SurfDiff 0) = 2 + 2 := by
  have hfalse : hasSurfaceDiffusionCode 2 c6NBoundFlat c6SurfDiff 0 = false := by
    simp [hasSurfaceDiffusionCode, nBoundBeforeType, c6NBoundFlat, c6SurfDiff]
  refine ⟨hfalse, ?_, ?_⟩
  · intro h
    have h1 := h 1 (by decide)
    simp [c6SurfDiff, nBoundBeforeType] at h1
  · rw [hfalse]
    rfl

/-- `jacPF_val = -outerAreaPerVolume / epsP` (GeneralRateModel.cpp, lines
1304 and 1413). -/
def jacPFVal (aout epsP : ℚ) : ℚ := -aout / epsP

/-- The `J_{p,f}` entry written by `GeneralRateModel::assembleOffdiagJac`
(GeneralRateModel.cpp, line 1449): the coefficient stored for particle type
`t`, component `c` is `jacPF_val / _poreAccessFactor[comp]`, indexing the
flattened pore-accessibility array by the component alone. -/
def assembleOffdiagJacPFEntry (faccFlat : ℕ → ℚ) (aoutT epsPT : ℕ → ℚ)
    (t c : ℕ) : ℚ :=
  jacPFVal (aoutT t) (epsPT t) / faccFlat c

/-- The coefficient of the flux DOF in the `J_{p,f}` residual contribution of
`GeneralRateModel::residualFlux` (GeneralRateModel.cpp, line 1336):
`jacPF_val / _poreAccessFactor[type*nComp + comp]`. -/
def residualFluxPFCoeff (nComp : ℕ) (faccFlat : ℕ → ℚ) (aoutT epsPT : ℕ → ℚ)
    (t c : ℕ) : ℚ :=
  jacPFVal (aoutT t) (epsPT t) / faccFlat (t * nComp + c)

/-- The flux-coupling term added to the outermost-shell mobile-phase residual
of `(t, k, c)` by `residualFlux` (GeneralRateModel.cpp, line 1336); it is
linear in the flux state `yf`. -/
def residualFluxPFTerm (nComp : ℕ) (faccFlat : ℕ → ℚ) (aoutT epsPT : ℕ → ℚ)
    (t c : ℕ) (yf : ℚ) : ℚ :=
  residualFluxPFCoeff nComp faccFlat aoutT epsPT t c * yf

/-- The pore-accessibility array of the C3 failing input:
`F_acc[0,0] = 1`, `F_acc[1,0] = 2` (flattened, `nComp = 1`). -/
def c3FaccFlat : ℕ → ℚ := fun i => if i = 0 then 1 else 2

/-- C3: counter-evaluation of the assembled `J_{p,f}` entry.  With
`nComp = 1`, two particle types, `a_out = 3`, `eps_p = 1` and
`PORE_ACCESSIBILITY = [1, 2]`, the entry assembled for type `t = 1`,
component `c = 0` is `-(a_out/eps_p)/F_acc[0,0] = -3`, while the
flux-coupling residual contribution of `residualFlux` is
`-(a_out/eps_p)/F_acc[1,0] * j_f`, whose derivative (its slope in the flux
DOF) is `-3/2`: the assembled block is not the derivative of the residual. -/
theorem assembleOffdiagJacPF_wrong_pore_access_index :
    assembleOffdiagJacPFEntry c3FaccFlat (fun _ => 3) (fun _ => 1) 1 0 = -3
      ∧ residualFluxPFTerm 1 c3FaccFlat (fun _ => 3) (fun _ => 1) 1 0 1
          - residualFluxPFTerm 1 c3FaccFlat (fun _ => 3) (fun _ => 1) 1 0 0
          = -3 / 2
      ∧ (-3 : ℚ) ≠ -3 / 2 := by
  refine ⟨?_, ?_, by norm_num⟩ <;>
    norm_num [assembleOffdiagJacPFEntry, residualFluxPFTerm, residualFluxPFCoeff,
      jacPFVal, c3FaccFlat]

/-- The `_jacInlet` entries placed by
`GeneralRateModel::notifyDiscontinuousSectionTransition` after a
flow-direction change (GeneralRateModel.cpp, lines 728-749).  Each entry is
`(row, column, coefficient)`: forward flow (`u ≥ 0`) places, for every
component, `(comp * strideColComp, comp, -u/h)`; backward flow places
`((nCol-1) * strideColCell + comp * strideColComp, comp, u/h)`.  The column
strides `sColCell` and `sColComp` are passed in as parameters. -/
def jacInletEntries (nComp nCol sColCell sColComp : ℕ) (u h : ℚ) :
    List (ℕ × ℕ × ℚ) :=
  if 0 ≤ u then
    (List.range nComp).map (fun comp => (comp * sColComp, comp, -u / h))
  else
    (List.range nComp).map
      (fun comp => ((nCol - 1) * sColCell + comp * sColComp, comp, u / h))

/-- C5 counterexample: with `nComp = 1`, `nCol = 2`, `u = -2`, `h = 1`
(and the standard strides `strideColCell = nComp`, `strideColComp = 1`),
`_jacInlet` holds the single entry `(1, 0, -2)`: the coefficient is
`u/h = -2`, not `|u|/h = 2` as the claim states. -/
theorem jacInletEntries_backward_coeff_negative :
    jacInletEntries 1 2 1 1 (-2) 1 = [(1, 0, -2)]
      ∧ (1, 0, (2 : ℚ)) ∉ jacInletEntries 1 2 1 1 (-2) 1 := by
  have hlist : jacInletEntries 1 2 1 1 (-2) 1 = [(1, 0, -2)] := by
    rw [jacInletEntries, if_neg (by norm_num)]
    norm_num [List.range_succ]
  refine ⟨hlist, ?_⟩
  rw [hlist]
  intro hmem
  rw [List.mem_singleton, Prod.ext_iff, Prod.ext_iff] at hmem
  exact absurd hmem.2.2 (by norm_num)

lemma countP_beq_range (n c : ℕ) (hc : c < n) :
    (List.range n).countP (fun i => i == c) = 1 := by
  induction n with
  | zero => omega
  | succ n ih =>
    rw [List.range_succ, List.countP_append]
    by_cases hlt : c < n
    · rw [ih hlt]
      have : (n == c) = false := by simp; omega
      simp [List.countP_cons, this]
    · have hcn : c = n := by omega
      subst hcn
      rw [List.countP_eq_zero.2 (by intro a ha; simp at ha ⊢; omega)]
      simp [List.countP_cons]

lemma filter_snd_length_one (n : ℕ) (f : ℕ → ℕ × ℕ × ℚ)
    (hf : ∀ i, (f i).2.1 = i) (c : ℕ) (hc : c < n) :
    (((List.range n).map f).filter (fun e => e.2.1 == c)).length = 1 := by
  rw [← List.countP_eq_length_filter, List.countP_map]
  have : ((fun e : ℕ × ℕ × ℚ => e.2.1 == c) ∘ f) = fun i => i == c := by
    funext i
    simp [Function.comp, hf i]
  rw [this, countP_beq_range n c hc]

/-- C5 (amended): after a flow-direction change to `u < 0`, `_jacInlet`
contains, for every component, exactly one entry, mapping that component's
inlet DOF into the last bulk cell (row `(nCol-1) * strideColCell + comp`)
with coefficient `u/h` (that is, `-|u|/h`), and no entry into the first bulk
cell; when `u ≥ 0`, each component's single entry maps into the first bulk
cell with coefficient `-u/h`.  The strides are instantiated with the bulk
layout values `strideColCell = nComp`, `strideColComp = 1`. -/
theorem jacInletEntries_spec (nComp nCol : ℕ) (u h : ℚ)
    (hn : 1 ≤ nComp) (hcol : 2 ≤ nCol) :
    (u < 0 →
      (∀ comp, comp < nComp →
        ((nCol - 1) * nComp + comp * 1, comp, u / h)
            ∈ jacInletEntries nComp nCol nComp 1 u h
          ∧ ((jacInletEntries nComp nCol nComp 1 u h).filter
              (fun e => e.2.1 == comp)).length = 1)
        ∧ ∀ e ∈ jacInletEntries nComp nCol nComp 1 u h, nComp ≤ e.1)
    ∧ (0 ≤ u →
      (∀ comp, comp < nComp →
        (comp * 1, comp, -u / h) ∈ jacInletEntries nComp nCol nComp 1 u h
          ∧ ((jacInletEntries nComp nCol nComp 1 u h).filter
              (fun e => e.2.1 == comp)).length = 1)
        ∧ ∀ e ∈ jacInletEntries nComp nCol nComp 1 u h, e.1 < nComp) := by
  constructor
  · intro hu
    have hE : jacInletEntries nComp nCol nComp 1 u h
        = (List.range nComp).map
            (fun comp => ((nCol - 1) * nComp + comp * 1, comp, u / h)) := by
      rw [jacInletEntries, if_neg (not_le.2 hu)]
    constructor
    · intro comp hcomp
      constructor
      · rw [hE]
        exact List.mem_map.2 ⟨comp, List.mem_range.2 hcomp, rfl⟩
      · rw [hE]
        exact filter_snd_length_one nComp _ (fun i => rfl) comp hcomp
    · intro e he
      rw [hE] at he
      obtain ⟨i, _, rfl⟩ := List.mem_map.1 he
      have h1 : 1 * nComp ≤ (nCol - 1) * nComp :=
        Nat.mul_le_mul_right nComp (by omega)
      simp only
      omega
  · intro hu
    have hE : jacInletEntries nComp nCol nComp 1 u h
        = (List.range nComp).map (fun comp => (comp * 1, comp, -u / h)) := by
      rw [jacInletEntries, if_pos hu]
    constructor
    · intro comp hcomp
      constructor
      · rw [hE]
        exact List.mem_map.2 ⟨comp, List.mem_range.2 hcomp, rfl⟩
      · rw [hE]
        exact filter_snd_length_one nComp _ (fun i => rfl) comp hcomp
    · intro e he
      rw [hE] at he
      obtain ⟨i, hi, rfl⟩ := List.mem_map.1 he
      have := List.mem_range.1 hi
      simp only
      omega

/-- Witness for `jacInletEntries_spec` at `nComp = 1`, `nCol = 2`, `u = -2`,
`h = 1`. -/
theorem jacInletEntries_spec_witness :
    ((-2 : ℚ) < 0 →
      (∀ comp, comp < 1 →
        ((2 - 1) * 1 + comp * 1, comp, (-2 : ℚ) / 1)
            ∈ jacInletEntries 1 2 1 1 (-2) 1
          ∧ ((jacInletEntries 1 2 1 1 (-2) 1).filter
              (fun e => e.2.1 == comp)).length = 1)
        ∧ ∀ e ∈ jacInletEntries 1 2 1 1 (-2) 1, 1 ≤ e.1)
    ∧ ((0 : ℚ) ≤ -2 →
      (∀ comp, comp < 1 →
        (comp * 1, comp, -(-2 : ℚ) / 1) ∈ jacInletEntries 1 2 1 1 (-2) 1
          ∧ ((jacInletEntries 1 2 1 1 (-2) 1).filter
              (fun e => e.2.1 == comp)).length = 1)
        ∧ ∀ e ∈ jacInletEntries 1 2 1 1 (-2) 1, e.1 < 1) :=
  jacInletEntries_spec 1 2 (-2) 1 (by decide) (by decide)

/-- `invBetaP = (1 - parPorosity) / (poreAccessFactor * parPorosity)`
(GeneralRateModel.cpp, line 1102). -/
def invBetaP (epsP facc : ℚ) : ℚ := (1 - epsP) / (facc * epsP)

/-- One `(type, axial cell)` particle block of
`GeneralRateModel::residualParticle` (GeneralRateModel.cpp, lines 1041-1261).
The state is addressed structurally: `yl s c` is the mobile-phase entry of
shell `s`, component `c` (the code's `y[s*strideParShell + c]` per the DOF
layout), `ys s b` the solid-phase entry at bound index `b` within the type
(the code's `y[s*strideParShell + strideParLiquid + b]`).  `kern` is the
contribution accumulated by the external binding cell kernel
(`parts::cell::residualKernel`, whose source is not part of the sample);
`aout`, `ain`, `r` are `parOuterSurfAreaPerVolume`, `parInnerSurfAreaPerVolume`
and `parCenterRadius`. -/
structure ParticleBlock where
  nParCell : ℕ
  nComp : ℕ
  nBoundT : ℕ → ℕ
  hasSurf : Bool
  epsP : ℚ
  facc : ℕ → ℚ
  dp : ℕ → ℚ
  sd : ℕ → ℚ
  aout : ℕ → ℚ
  ain : ℕ → ℚ
  r : ℕ → ℚ
  kern : ℕ → ℕ → ℚ
  yl : ℕ → ℕ → ℚ
  ys : ℕ → ℕ → ℚ

/-- Surface-diffusion contribution subtracted at the outer face of shell `s`
for component `c` (GeneralRateModel.cpp, lines 1120-1130): one term per bound
state `i`, with coefficient `aout * parSurfDiff[boundOffset(c)+i] * invBetaP`
against the bound-state gradient across the face. -/
def surfDiffOuter (P : ParticleBlock) (s c : ℕ) : ℚ :=
  ∑ i in Finset.range (P.nBoundT c),
    P.aout s * P.sd (boundOffset P.nBoundT c + i) * invBetaP P.epsP (P.facc c)
      * ((P.ys (s - 1) (boundOffset P.nBoundT c + i)
            - P.ys s (boundOffset P.nBoundT c + i)) / (P.r (s - 1) - P.r s))

/-- Surface-diffusion contribution added at the inner face of shell `s`
(GeneralRateModel.cpp, lines 1166-1174). -/
def surfDiffInner (P : ParticleBlock) (s c : ℕ) : ℚ :=
  ∑ i in Finset.range (P.nBoundT c),
    P.ain s * P.sd (boundOffset P.nBoundT c + i) * invBetaP P.epsP (P.facc c)
      * ((P.ys s (boundOffset P.nBoundT c + i)
            - P.ys (s + 1) (boundOffset P.nBoundT c + i)) / (P.r s - P.r (s + 1)))

/-- The mobile-phase residual entry of shell `s`, component `c`
(GeneralRateModel.cpp, lines 1099-1197): the cell-kernel contribution, minus
the outer-face fluxes guarded by `par != 0` (line 1108), plus the inner-face
fluxes guarded by `par != nParCell - 1` (line 1156).  The molecular gradient
across the outer face is `(y[s-1,c] - y[s,c]) / (r[s-1] - r[s])` (lines
1111-1115); across the inner face `(y[s,c] - y[s+1,c]) / (r[s] - r[s+1])`
(lines 1159-1163). -/
def residualParticleMobile (P : ParticleBlock) (s c : ℕ) : ℚ :=
  P.kern s c
    - (if s ≠ 0 then
        P.aout s * P.dp c * ((P.yl (s - 1) c - P.yl s c) / (P.r (s - 1) - P.r s))
          + (if P.hasSurf then surfDiffOuter P s c else 0)
      else 0)
    + (if s ≠ P.nParCell - 1 then
        P.ain s * P.dp c * ((P.yl s c - P.yl (s + 1) c) / (P.r s - P.r (s + 1)))
          + (if P.hasSurf then surfDiffInner P s c else 0)
      else 0)

/-- The same residual entry with the two molecular radial-diffusion face terms
removed (kernel and surface-diffusion parts only). -/
def residualParticleMobileNoDiff (P : ParticleBlock) (s c : ℕ) : ℚ :=
  P.kern s c
    - (if s ≠ 0 then (if P.hasSurf then surfDiffOuter P s c else 0) else 0)
    + (if s ≠ P.nParCell - 1 then (if P.hasSurf then surfDiffInner P s c else 0)
      else 0)

/-- C1: for every shell `s < nParCell` and component `c`, the mobile-phase
residual contains the outer-face radial diffusion term
`-aout * Dp * (y[s-1,c] - y[s,c]) / (r[s-1] - r[s])` exactly when `0 < s`,
and the inner-face term
`+ain * Dp * (y[s,c] - y[s+1,c]) / (r[s] - r[s+1])` exactly when
`s < nParCell - 1`; the remaining summands are the kernel and
surface-diffusion contributions. -/
theorem residualParticleMobile_diffusion_faces (P : ParticleBlock) (s c : ℕ)
    (hs : s < P.nParCell) :
    residualParticleMobile P s c
      = residualParticleMobileNoDiff P s c
        + (if 0 < s then
            -(P.aout s * P.dp c * (P.yl (s - 1) c - P.yl s c)
                / (P.r (s - 1) - P.r s))
          else 0)
        + (if s < P.nParCell - 1 then
            P.ain s * P.dp c * (P.yl s c - P.yl (s + 1) c)
              / (P.r s - P.r (s + 1))
          else 0) := by
  have c1 : (s ≠ 0) = (0 < s) := propext (by omega)
  have c2 : (s ≠ P.nParCell - 1) = (s < P.nParCell - 1) := propext (by omega)
  rw [residualParticleMobile, residualParticleMobileNoDiff]
  simp only [c1, c2]
  split_ifs <;> ring

/-- A concrete particle block for the C1 witness: two shells, one component,
one bound state, surface diffusion on. -/
def c1Block : ParticleBlock where
  nParCell := 2
  nComp := 1
  nBoundT := fun _ => 1
  hasSurf := true
  epsP := 1/2
  facc := fun _ => 1
  dp := fun _ => 1
  sd := fun _ => 1
  aout := fun s => (s : ℚ) + 1
  ain := fun s => (s : ℚ) + 2
  r := fun s => 4 - (s : ℚ)
  kern := fun s c => (s : ℚ) + (c : ℚ)
  yl := fun s c => (s : ℚ) * 2 + (c : ℚ)
  ys := fun s b => (s : ℚ) + (b : ℚ)

/-- Witness for `residualParticleMobile_diffusion_faces` at the innermost
shell `s = 1` of `c1Block`. -/
theorem residualParticleMobile_diffusion_faces_witness :
    residualParticleMobile c1Block 1 0
      = residualParticleMobileNoDiff c1Block 1 0
        + (if 0 < 1 then
            -(c1Block.aout 1 * c1Block.dp 0 * (c1Block.yl (1 - 1) 0 - c1Block.yl 1 0)
                / (c1Block.r (1 - 1) - c1Block.r 1))
          else 0)
        + (if 1 < c1Block.nParCell - 1 then
            c1Block.ain 1 * c1Block.dp 0 * (c1Block.yl 1 0 - c1Block.yl (1 + 1) 0)
              / (c1Block.r 1 - c1Block.r (1 + 1))
          else 0) :=
  residualParticleMobile_diffusion_faces c1Block 1 0 (by decide)

/-- The discretized film-diffusion coefficient `kf_FV[comp]`
(GeneralRateModel.cpp, lines 1307-1311):
`1 / (absOuterShellHalfRadius / epsP / F_acc / D_p + 1 / k_f)` with
`absOuterShellHalfRadius = 0.5 * parCellSize[outermost shell]`. -/
def kfFV (cellSize0 epsP facc dpc kfc : ℚ) : ℚ :=
  1 / (0.5 * cellSize0 / epsP / facc / dpc + 1 / kfc)

/-- The data entering `GeneralRateModel::residualFlux` (GeneralRateModel.cpp,
lines 1263-1353), addressed structurally: `yFlux t k c` is the flux DOF of
`(type, axial cell, component)`; `yCol k c` the bulk DOF; `yp t k s c` the
particle mobile-phase DOF of shell `s`; `cellSize0 t` is
`_parCellSize[nParCellsBeforeType[t]]` (the outermost shell thickness). -/
structure FluxBlock where
  nComp : ℕ
  cellSize0 : ℕ → ℚ
  epsP : ℕ → ℚ
  faccFlat : ℕ → ℚ
  dp : ℕ → ℕ → ℚ
  kf : ℕ → ℕ → ℚ
  yFlux : ℕ → ℕ → ℕ → ℚ
  yCol : ℕ → ℕ → ℚ
  yp : ℕ → ℕ → ℕ → ℕ → ℚ

/-- The flux-equation residual of `(t, k, c)` assembled by `residualFlux`:
the identity fill `resFlux[i] = yFlux[i]` (line 1279), the `J_{f,0}`
contribution `-= kf_FV * yCol` (line 1326) and the `J_{f,p}` contribution
`+= kf_FV * c_p` at the outermost shell `s = 0` (line 1346); each flux
equation is touched only by its own type's loop iteration. -/
def residualFluxEq (F : FluxBlock) (t k c : ℕ) : ℚ :=
  F.yFlux t k c
    - kfFV (F.cellSize0 t) (F.epsP t) (F.faccFlat (t * F.nComp + c))
        (F.dp t c) (F.kf t c) * F.yCol k c
    + kfFV (F.cellSize0 t) (F.epsP t) (F.faccFlat (t * F.nComp + c))
        (F.dp t c) (F.kf t c) * F.yp t k 0 c

lemma kfFV_eq (a e f d k : ℚ) :
    kfFV a e f d k = 1 / ((a / 2) / (e * f * d) + 1 / k) := by
  rw [kfFV, div_div, div_div]
  ring_nf

/-- C2: the flux-equation residual of `(t, k, c)` equals
`j_f - kf_FV * c_bulk + kf_FV * c_p(s=0)` with
`kf_FV = 1 / ((dr_0/2) / (eps_p * F_acc * D_p) + 1 / k_f)`, where `dr_0` is
the outermost shell thickness of the type. -/
theorem residualFluxEq_spec (F : FluxBlock) (t k c : ℕ) :
    residualFluxEq F t k c
      = F.yFlux t k c
        - (1 / ((F.cellSize0 t / 2)
              / (F.epsP t * F.faccFlat (t * F.nComp + c) * F.dp t c)
            + 1 / F.kf t c)) * F.yCol k c
        + (1 / ((F.cellSize0 t / 2)
              / (F.epsP t * F.faccFlat (t * F.nComp + c) * F.dp t c)
            + 1 / F.kf t c)) * F.yp t k 0 c := by
  rw [residualFluxEq, kfFV_eq]

/-- Modelled from the spec: the flux-DOF offset `offsetJf()` of the Indexer
(declared in GeneralRateModel.hpp, which is not among the sources) follows the
DOF layout of the specification: inlet (`nComp`), bulk (`nCol*nComp`), all
particle types (`parTypeOffset[nParType]`), then the flux DOFs. -/
def offsetJf (nCol nComp nParType : ℕ) (nParCellFn nBoundFlat : ℕ → ℕ) : ℕ :=
  nComp + nCol * nComp + parTypeOffset nCol nComp nParCellFn nBoundFlat nParType

/-- `std::fill(v + lo, v + lo + len, 0.0)` as a function update. -/
def fillZeroRange (f : ℕ → ℚ) (lo len : ℕ) : ℕ → ℚ :=
  fun i => if lo ≤ i ∧ i < lo + len then 0 else f i

/-- `GeneralRateModel::multiplyWithDerivativeJacobian` (GeneralRateModel.cpp,
lines 1600-1644).  `loopRet` is the result vector after the bulk/particle
loop (lines 1607-1636), which delegates to the convection-dispersion operator
and the external `multiplyWithDerivativeJacobianKernel`; the code then
overwrites the flux rows (lines 1639-1640) and the inlet rows (line 1643)
with zeros, in that order, after the loop has completed. -/
def multiplyWithDerivativeJacobian (nCol nComp nParType : ℕ)
    (nParCellFn nBoundFlat : ℕ → ℕ) (loopRet : ℕ → ℚ) : ℕ → ℚ :=
  fillZeroRange
    (fillZeroRange loopRet (offsetJf nCol nComp nParType nParCellFn nBoundFlat)
      (nCol * nComp * nParType))
    0 nComp

/-- C8: for every result of the bulk/particle loop (hence for every input
vector `ydot`), the vector written by `multiplyWithDerivativeJacobian` is
exactly zero at all `nComp` inlet DOFs and at all `nCol*nComp*nParType` flux
DOFs. -/
theorem multiplyWithDerivativeJacobian_zero_rows (nCol nComp nParType : ℕ)
    (nParCellFn nBoundFlat : ℕ → ℕ) (loopRet : ℕ → ℚ) (i : ℕ)
    (hi : i < nComp
      ∨ (offsetJf nCol nComp nParType nParCellFn nBoundFlat ≤ i
          ∧ i < offsetJf nCol nComp nParType nParCellFn nBoundFlat
                + nCol * nComp * nParType)) :
    multiplyWithDerivativeJacobian nCol nComp nParType nParCellFn nBoundFlat
      loopRet i = 0 := by
  rw [multiplyWithDerivativeJacobian, fillZeroRange]
  simp only [fillZeroRange]
  rcases hi with hi | hi
  · rw [if_pos ⟨Nat.zero_le i, by omega⟩]
  · by_cases h0 : 0 ≤ i ∧ i < 0 + nComp
    · rw [if_pos h0]
    · rw [if_neg h0, if_pos hi]

/-- Witness for `multiplyWithDerivativeJacobian_zero_rows`: the first inlet
DOF of a concrete discretization. -/
theorem multiplyWithDerivativeJacobian_zero_rows_witness :
    multiplyWithDerivativeJacobian 2 1 1 (fun _ => 3) (fun _ => 2)
      (fun i => (i : ℚ) + 1) 0 = 0 :=
  multiplyWithDerivativeJacobian_zero_rows 2 1 1 (fun _ => 3) (fun _ => 2)
    (fun i => (i : ℚ) + 1) 0 (Or.inl (by decide))

/-- `GeneralRateModel::residualBulk` returns `0` on both paths
(GeneralRateModel.cpp, lines 1018 and 1038); the flag records whether a bulk
dynamic reaction is configured (the early-out at line 1017). -/
def residualBulkStatus (hasBulkReaction : Bool) : ℤ :=
  if hasBulkReaction then 0 else 0

/-- `GeneralRateModel::residualParticle` returns `0` unconditionally
(GeneralRateModel.cpp, line 1260). -/
def residualParticleStatus : ℤ := 0

/-- `GeneralRateModel::residualFlux` returns `0` unconditionally
(GeneralRateModel.cpp, line 1352). -/
def residualFluxStatus : ℤ := 0

/-- `GeneralRateModel::residualImpl` (GeneralRateModel.cpp, lines 979-1011):
the sub-statuses of the bulk/particle loop (lines 987-998) and of
`residualFlux` (line 1002) are computed but discarded, and the function
returns `0` (line 1010). -/
def residualImplStatus (nCol nParType : ℕ) (hasBulkReaction : Bool) : ℤ :=
  let _ := (List.range (nCol * nParType + 1)).map
    (fun pblk => if pblk = 0 then residualBulkStatus hasBulkReaction
      else residualParticleStatus)
  let _ := residualFluxStatus
  0

/-- `GeneralRateModel::residual` forwards to
`residualImpl<double, double, double, false>` (GeneralRateModel.cpp,
line 866). -/
def residualStatus (nCol nParType : ℕ) (hasBulkReaction : Bool) : ℤ :=
  residualImplStatus nCol nParType hasBulkReaction

/-- C10: for every evaluation point, `GeneralRateModel::residual` returns
`0`, and so do `residualImpl`, `residualBulk`, `residualParticle` and
`residualFlux`: the residual path never produces a negative (fatal) or
positive (recoverable) status. -/
theorem residualStatus_always_zero (nCol nParType : ℕ)
    (hasBulkReaction : Bool) :
    residualStatus nCol nParType hasBulkReaction = 0
      ∧ residualImplStatus nCol nParType hasBulkReaction = 0
      ∧ residualBulkStatus hasBulkReaction = 0
      ∧ residualParticleStatus = 0
      ∧ residualFluxStatus = 0 := by
  refine ⟨rfl, rfl, ?_, rfl, rfl⟩
  cases hasBulkReaction <;> rfl

/-- The observable steps of
`ModelSystem::consistentInitialConditionAlgorithm`
(ModelSystemImpl-InitialConditions.cpp, lines 228-295).  `initState i` is
`consistentInitialState` on unit `i`; `residualJac b` is the residual and
Jacobian evaluation, with `b` recording that the time-derivative vector
passed in `ConstSimulationState` is the null pointer (line 274);
`timeDeriv i` is `consistentInitialTimeDerivative` on unit `i`. -/
inductive InitEvent where
  | initState : ℕ → InitEvent
  | zeroCouplingY : InitEvent
  | solveCouplingY : InitEvent
  | residualJac : Bool → InitEvent
  | timeDeriv : ℕ → InitEvent
  | zeroCouplingYdot : InitEvent
  | solveCouplingYdot : InitEvent
  deriving DecidableEq

/-- The sequence of steps executed by `consistentInitialConditionAlgorithm`
for a system of units (`units.getD i false` tells whether unit `i` has an
inlet): consistent initial state on all units without inlet (lines 237-245),
zeroing of the coupling DOFs (line 254), `solveCouplingDOF` (line 256),
consistent initial state on all units with inlet (lines 259-267), residual
and Jacobian at `ydot = null` (line 274), time derivatives on all units
(lines 281-286), zeroing and solving of the coupling DOFs of `ydot`
(lines 289-291). -/
def consistentInitTrace (units : List Bool) : List InitEvent :=
  ((List.range units.length).filter
      (fun i => !(units.getD i false))).map InitEvent.initState
    ++ [InitEvent.zeroCouplingY, InitEvent.solveCouplingY]
    ++ ((List.range units.length).filter
        (fun i => units.getD i false)).map InitEvent.initState
    ++ [InitEvent.residualJac true]
    ++ (List.range units.length).map InitEvent.timeDeriv
    ++ [InitEvent.zeroCouplingYdot, InitEvent.solveCouplingYdot]

/-- The phase number the claim assigns to each step: no-inlet state
initialization first, then coupling, then inlet-unit state initialization,
then the frozen-state residual, then the time derivatives. -/
def initPhase (units : List Bool) : InitEvent → ℕ
  | InitEvent.initState i => if units.getD i false then 3 else 0
  | InitEvent.zeroCouplingY => 1
  | InitEvent.solveCouplingY => 2
  | InitEvent.residualJac _ => 4
  | InitEvent.timeDeriv _ => 5
  | InitEvent.zeroCouplingYdot => 6
  | InitEvent.solveCouplingYdot => 7

lemma initState_injective : Function.Injective InitEvent.initState := by
  intro a b hab
  injection hab

lemma timeDeriv_injective : Function.Injective InitEvent.timeDeriv := by
  intro a b hab
  injection hab

lemma sorted_le_append {l1 l2 : List ℕ} (b : ℕ)
    (h1 : ∀ x ∈ l1, x ≤ b) (h2 : ∀ x ∈ l2, b ≤ x)
    (s1 : l1.Sorted (· ≤ ·)) (s2 : l2.Sorted (· ≤ ·)) :
    (l1 ++ l2).Sorted (· ≤ ·) :=
  List.pairwise_append.2 ⟨s1, s2, fun a ha c hc => le_trans (h1 a ha) (h2 c hc)⟩

lemma sorted_const_list {l : List ℕ} {c : ℕ} (h : ∀ x ∈ l, x = c) :
    l.Sorted (· ≤ ·) :=
  List.pairwise_of_forall_mem_list (fun a ha b hb => by rw [h a ha, h b hb])

lemma count_range_eq_one (n i : ℕ) (hi : i < n) :
    (List.range n).count i = 1 :=
  countP_beq_range n i hi

/-- C9: `consistentInitialConditionAlgorithm` executes its steps in the
claimed phase order (the phase numbers along the trace are nondecreasing), and
each step occurs exactly once: consistent initial state on each unit, the
coupling zeroing and solve, the residual-with-Jacobian evaluation at a null
time-derivative vector, and the per-unit time derivatives. -/
theorem consistentInitTrace_ordered (units : List Bool) :
    ((consistentInitTrace units).map (initPhase units)).Sorted (· ≤ ·)
      ∧ (∀ i, i < units.length →
          (consistentInitTrace units).count (InitEvent.initState i) = 1)
      ∧ (consistentInitTrace units).count InitEvent.zeroCouplingY = 1
      ∧ (consistentInitTrace units).count InitEvent.solveCouplingY = 1
      ∧ (consistentInitTrace units).count (InitEvent.residualJac true) = 1
      ∧ ∀ i, i < units.length →
          (consistentInitTrace units).count (InitEvent.timeDeriv i) = 1 := by
  have hA : ∀ x ∈ (((List.range units.length).filter
        (fun i => !(units.getD i false))).map InitEvent.initState).map
          (initPhase units), x = 0 := by
    intro x hx
    obtain ⟨e, he, rfl⟩ := List.mem_map.1 hx
    obtain ⟨i, hi, rfl⟩ := List.mem_map.1 he
    have hfi := List.of_mem_filter hi
    have hfi' : units.getD i false = false := by
      cases h : units.getD i false
      · rfl
      · rw [h] at hfi
        exact absurd hfi (by decide)
    show initPhase units (InitEvent.initState i) = 0
    simp only [initPhase]
    rw [hfi']
    decide
  have hB : ∀ x ∈ (((List.range units.length).filter
        (fun i => units.getD i false)).map InitEvent.initState).map
          (initPhase units), x = 3 := by
    intro x hx
    obtain ⟨e, he, rfl⟩ := List.mem_map.1 hx
    obtain ⟨i, hi, rfl⟩ := List.mem_map.1 he
    have hfi := List.of_mem_filter hi
    show initPhase units (InitEvent.initState i) = 3
    simp only [initPhase]
    rw [hfi]
    decide
  have hC : ∀ x ∈ (((List.range units.length).map InitEvent.timeDeriv).map
        (initPhase units)), x = 5 := by
    intro x hx
    obtain ⟨e, he, rfl⟩ := List.mem_map.1 hx
    obtain ⟨i, hi, rfl⟩ := List.mem_map.1 he
    rfl
  refine ⟨?_, ?_, ?_, ?_, ?_, ?_⟩
  · rw [consistentInitTrace]
    simp only [List.map_append, List.map_cons, List.map_nil]
    have hL1le : ∀ x ∈ [initPhase units InitEvent.zeroCouplingY,
        initPhase units InitEvent.solveCouplingY], x ≤ 2 := by
      intro x hx
      simp only [initPhase, List.mem_cons, List.not_mem_nil, or_false] at hx
      rcases hx with rfl | rfl <;> omega
    have hL1ge : ∀ x ∈ [initPhase units InitEvent.zeroCouplingY,
        initPhase units InitEvent.solveCouplingY], 1 ≤ x := by
      intro x hx
      simp only [initPhase, List.mem_cons, List.not_mem_nil, or_false] at hx
      rcases hx with rfl | rfl <;> omega
    have hL1s : List.Sorted (· ≤ ·) [initPhase units InitEvent.zeroCouplingY,
        initPhase units InitEvent.solveCouplingY] := by
      simp only [initPhase]
      decide
    have hL2eq : ∀ x ∈ [initPhase units (InitEvent.residualJac true)], x = 4 := by
      intro x hx
      simp only [initPhase, List.mem_cons, List.not_mem_nil, or_false] at hx
      omega
    have hL3ge : ∀ x ∈ [initPhase units InitEvent.zeroCouplingYdot,
        initPhase units InitEvent.solveCouplingYdot], 6 ≤ x := by
      intro x hx
      simp only [initPhase, List.mem_cons, List.not_mem_nil, or_false] at hx
      rcases hx with rfl | rfl <;> omega
    have hL3s : List.Sorted (· ≤ ·)
        [initPhase units InitEvent.zeroCouplingYdot,
          initPhase units InitEvent.solveCouplingYdot] := by
      simp only [initPhase]
      decide
    have sW := sorted_le_append 1 (fun x hx => le_trans (le_of_eq (hA x hx))
      (by omega)) hL1ge (sorted_const_list hA) hL1s
    have hWle : ∀ x ∈ (((List.range units.length).filter
        (fun i => !(units.getD i false))).map InitEvent.initState).map
          (initPhase units)
        ++ [initPhase units InitEvent.zeroCouplingY,
            initPhase units InitEvent.solveCouplingY], x ≤ 3 := by
      intro x hx
      rcases List.mem_append.1 hx with hx | hx
      · rw [hA x hx]; omega
      · exact le_trans (hL1le x hx) (by omega)
    have sZ := sorted_le_append 3 hWle (fun x hx => le_of_eq (hB x hx).symm)
      sW (sorted_const_list hB)
    have hZle : ∀ x ∈ ((((List.range units.length).filter
        (fun i => !(units.getD i false))).map InitEvent.initState).map
          (initPhase units)
        ++ [initPhase units InitEvent.zeroCouplingY,
            initPhase units InitEvent.solveCouplingY])
        ++ (((List.range units.length).filter
            (fun i => units.getD i false)).map InitEvent.initState).map
          (initPhase units), x ≤ 4 := by
      intro x hx
      rcases List.mem_append.1 hx with hx | hx
      · exact le_trans (hWle x hx) (by omega)
      · rw [hB x hx]; omega
    have sY := sorted_le_append 4 hZle (fun x hx => le_of_eq (hL2eq x hx).symm)
      sZ (sorted_const_list hL2eq)
    have hYle : ∀ x ∈ (((((List.range units.length).filter
        (fun i => !(units.getD i false))).map InitEvent.initState).map
          (initPhase units)
        ++ [initPhase units InitEvent.zeroCouplingY,
            initPhase units InitEvent.solveCouplingY])
        ++ (((List.range units.length).filter
            (fun i => units.getD i false)).map InitEvent.initState).map
          (initPhase units))
        ++ [initPhase units (InitEvent.residualJac true)], x ≤ 5 := by
      intro x hx
      rcases List.mem_append.1 hx with hx | hx
      · exact le_trans (hZle x hx) (by omega)
      · rw [hL2eq x hx]; omega
    have sX := sorted_le_append 5 hYle (fun x hx => le_of_eq (hC x hx).symm)
      sY (sorted_const_list hC)
    have hXle : ∀ x ∈ ((((((List.range units.length).filter
        (fun i => !(units.getD i false))).map InitEvent.initState).map
          (initPhase units)
        ++ [initPhase units InitEvent.zeroCouplingY,
            initPhase units InitEvent.solveCouplingY])
        ++ (((List.range units.length).filter
            (fun i => units.getD i false)).map InitEvent.initState).map
          (initPhase units))
        ++ [initPhase units (InitEvent.residualJac true)])
        ++ (((List.range units.length).map InitEvent.timeDeriv).map
          (initPhase units)), x ≤ 6 := by
      intro x hx
      rcases List.mem_append.1 hx with hx | hx
      · exact le_trans (hYle x hx) (by omega)
      · rw [hC x hx]; omega
    exact sorted_le_append 6 hXle hL3ge sX hL3s
  · intro i hi
    rw [consistentInitTrace]
    simp only [List.count_append]
    have hmapA : ∀ p : ℕ → Bool, (((List.range units.length).filter p).map
        InitEvent.initState).count (InitEvent.initState i)
          = ((List.range units.length).filter p).count i := fun p =>
      List.count_map_of_injective _ _ initState_injective _
    have hlit1 : ([InitEvent.zeroCouplingY,
        InitEvent.solveCouplingY]).count (InitEvent.initState i) = 0 := by
      simp [List.count_cons]
    have hlit2 : ([InitEvent.residualJac true]).count (InitEvent.initState i)
        = 0 := by
      simp [List.count_cons]
    have hlit3 : ([InitEvent.zeroCouplingYdot,
        InitEvent.solveCouplingYdot]).count (InitEvent.initState i) = 0 := by
      simp [List.count_cons]
    have hmapC : (((List.range units.length).map
        InitEvent.timeDeriv)).count (InitEvent.initState i) = 0 :=
      List.count_eq_zero.2 (by simp)
    rw [hmapA, hmapA, hlit1, hlit2, hlit3, hmapC]
    cases hgb : units.getD i false
    · have hone : ((List.range units.length).filter
          (fun j => !(units.getD j false))).count i = 1 := by
        have hcf : ((List.range units.length).filter
            (fun j => !(units.getD j false))).count i
              = (List.range units.length).count i :=
          List.count_filter (by show (!(units.getD i false)) = true; rw [hgb]; rfl)
        rw [hcf]
        exact count_range_eq_one _ _ hi
      have hzero : ((List.range units.length).filter
          (fun j => units.getD j false)).count i = 0 := by
        refine List.count_eq_zero.2 fun hmem => ?_
        have h2 := List.of_mem_filter hmem
        rw [hgb] at h2
        exact absurd h2 (by decide)
      omega
    · have hzero : ((List.range units.length).filter
          (fun j => !(units.getD j false))).count i = 0 := by
        refine List.count_eq_zero.2 fun hmem => ?_
        have h2 := List.of_mem_filter hmem
        rw [hgb] at h2
        exact absurd h2 (by decide)
      have hone : ((List.range units.length).filter
          (fun j => units.getD j false)).count i = 1 := by
        have hcf : ((List.range units.length).filter
            (fun j => units.getD j false)).count i
              = (List.range units.length).count i :=
          List.count_filter (show units.getD i false = true from hgb)
        rw [hcf]
        exact count_range_eq_one _ _ hi
      omega
  · rw [consistentInitTrace]
    simp only [List.count_append]
    have h1 : ∀ p : ℕ → Bool, (((List.range units.length).filter p).map
        InitEvent.initState).count InitEvent.zeroCouplingY = 0 := fun p =>
      List.count_eq_zero.2 (by simp)
    have h2 : (((List.range units.length).map
        InitEvent.timeDeriv)).count InitEvent.zeroCouplingY = 0 :=
      List.count_eq_zero.2 (by simp)
    rw [h1, h1, h2]
    rfl
  · rw [consistentInitTrace]
    simp only [List.count_append]
    have h1 : ∀ p : ℕ → Bool, (((List.range units.length).filter p).map
        InitEvent.initState).count InitEvent.solveCouplingY = 0 := fun p =>
      List.count_eq_zero.2 (by simp)
    have h2 : (((List.range units.length).map
        InitEvent.timeDeriv)).count InitEvent.solveCouplingY = 0 :=
      List.count_eq_zero.2 (by simp)
    rw [h1, h1, h2]
    rfl
  · rw [consistentInitTrace]
    simp only [List.count_append]
    have h1 : ∀ p : ℕ → Bool, (((List.range units.length).filter p).map
        InitEvent.initState).count (InitEvent.residualJac true) = 0 := fun p =>
      List.count_eq_zero.2 (by simp)
    have h2 : (((List.range units.length).map
        InitEvent.timeDeriv)).count (InitEvent.residualJac true) = 0 :=
      List.count_eq_zero.2 (by simp)
    rw [h1, h1, h2]
    rfl
  · intro i hi
    rw [consistentInitTrace]
    simp only [List.count_append]
    have h1 : ∀ p : ℕ → Bool, (((List.range units.length).filter p).map
        InitEvent.initState).count (InitEvent.timeDeriv i) = 0 := fun p =>
      List.count_eq_zero.2 (by simp)
    have hlit1 : ([InitEvent.zeroCouplingY,
        InitEvent.solveCouplingY]).count (InitEvent.timeDeriv i) = 0 := by
      simp [List.count_cons]
    have hlit2 : ([InitEvent.residualJac true]).count (InitEvent.timeDeriv i)
        = 0 := by
      simp [List.count_cons]
    have hlit3 : ([InitEvent.zeroCouplingYdot,
        InitEvent.solveCouplingYdot]).count (InitEvent.timeDeriv i) = 0 := by
      simp [List.count_cons]
    have hmapC : (((List.range units.length).map
        InitEvent.timeDeriv)).count (InitEvent.timeDeriv i)
          = (List.range units.length).count i :=
      List.count_map_of_injective _ _ timeDeriv_injective _
    rw [h1, h1, hlit1, hlit2, hlit3, hmapC, count_range_eq_one _ _ hi]

/-- Witness for `consistentInitTrace_ordered` on a two-unit system: unit 0
has no inlet (a source), unit 1 has one. -/
theorem consistentInitTrace_ordered_witness :
    ((consistentInitTrace [false, true]).map
        (initPhase [false, true])).Sorted (· ≤ ·)
      ∧ (∀ i, i < ([false, true] : List Bool).length →
          (consistentInitTrace [false, true]).count (InitEvent.initState i) = 1)
      ∧ (consistentInitTrace [false, true]).count InitEvent.zeroCouplingY = 1
      ∧ (consistentInitTrace [false, true]).count InitEvent.solveCouplingY = 1
      ∧ (consistentInitTrace [false, true]).count (InitEvent.residualJac true) = 1
      ∧ ∀ i, i < ([false, true] : List Bool).length →
          (consistentInitTrace [false, true]).count (InitEvent.timeDeriv i) = 1 :=
  consistentInitTrace_ordered [false, true]

end Cadet
